import Mathlib

/-!
Verification development for the `product_review_hub` service: a shallow
embedding of its cache layer (`internal/cache/cache.go`), the idempotency
middleware (`internal/middleware/idempotency.go`) and the Redis-backed
idempotency store, together with proofs of the documented properties.

Strings are modelled as `List Char`; Redis is modelled as a partial map from
keys to stored byte strings; `fmt.Sprintf` with `%d` is modelled by an
executable decimal renderer.
-/

namespace ProductReviewHub

/-- Decimal digit test on characters: `'0' ≤ c ≤ '9'` (code points 48–57). -/
def isDigitC (c : Char) : Bool := decide (48 ≤ c.toNat) && decide (c.toNat ≤ 57)

/-- The decimal digit character for `n < 10` (models the digit emission of
Go's `%d` verb). -/
def decDigit (n : Nat) : Char :=
  match n with
  | 0 => '0' | 1 => '1' | 2 => '2' | 3 => '3' | 4 => '4'
  | 5 => '5' | 6 => '6' | 7 => '7' | 8 => '8' | _ => '9'

/-- Fuelled most-significant-first decimal rendering of a natural number,
accumulating into `acc`.  The fuel only serves structural recursion; it is
always chosen large enough. -/
def natDecAux : Nat → Nat → List Char → List Char
  | 0, _, acc => acc
  | fuel + 1, n, acc =>
    if n < 10 then decDigit n :: acc
    else natDecAux fuel (n / 10) (decDigit (n % 10) :: acc)

/-- Decimal rendering of a natural number, e.g. `natDec 42 = ['4','2']`. -/
def natDec (n : Nat) : List Char := natDecAux (n + 1) n []

/-- Decimal rendering of an integer: Go's `%d` for `int`/`int64` values. -/
def intDec (i : Int) : List Char :=
  if i < 0 then '-' :: natDec (-i).toNat else natDec i.toNat

/-- Value of a most-significant-first digit string. -/
def valD : List Char → Nat
  | [] => 0
  | c :: cs => (c.toNat - 48) * 10 ^ cs.length + valD cs

theorem decDigit_toNat {d : Nat} (h : d < 10) : (decDigit d).toNat = 48 + d := by
  interval_cases d <;> rfl

theorem decDigit_isDigit {d : Nat} (h : d < 10) : isDigitC (decDigit d) = true := by
  simp [isDigitC, decDigit_toNat h]
  omega

theorem natDecAux_append (fuel : Nat) :
    ∀ n acc, natDecAux fuel n acc = natDecAux fuel n [] ++ acc := by
  induction fuel with
  | zero => intro n acc; simp [natDecAux]
  | succ fuel ih =>
    intro n acc
    by_cases h : n < 10
    · simp [natDecAux, h]
    · simp only [natDecAux, if_neg h]
      rw [ih (n / 10) (decDigit (n % 10) :: acc), ih (n / 10) [decDigit (n % 10)]]
      simp

theorem natDec_ne_nil (n : Nat) : natDec n ≠ [] := by
  unfold natDec
  by_cases h : n < 10
  · simp [natDecAux, h]
  · simp only [natDecAux, if_neg h]
    rw [natDecAux_append]
    simp

theorem natDecAux_all_digit (fuel : Nat) :
    ∀ n acc, (∀ c ∈ acc, isDigitC c = true) →
      ∀ c ∈ natDecAux fuel n acc, isDigitC c = true := by
  induction fuel with
  | zero => intro n acc hacc; simpa [natDecAux] using hacc
  | succ fuel ih =>
    intro n acc hacc c hc
    by_cases h : n < 10
    · simp only [natDecAux, if_pos h] at hc
      rcases List.mem_cons.mp hc with rfl | hmem
      · exact decDigit_isDigit h
      · exact hacc _ hmem
    · simp only [natDecAux, if_neg h] at hc
      refine ih (n / 10) _ ?_ c hc
      intro d hd
      rcases List.mem_cons.mp hd with rfl | hmem
      · exact decDigit_isDigit (Nat.mod_lt _ (by omega))
      · exact hacc _ hmem

theorem natDec_all_digit (n : Nat) : ∀ c ∈ natDec n, isDigitC c = true :=
  natDecAux_all_digit (n + 1) n [] (by simp)

theorem valD_append (xs ys : List Char) :
    valD (xs ++ ys) = valD xs * 10 ^ ys.length + valD ys := by
  induction xs with
  | nil => simp [valD]
  | cons c cs ih =>
    show (c.toNat - 48) * 10 ^ (cs ++ ys).length + valD (cs ++ ys)
        = ((c.toNat - 48) * 10 ^ cs.length + valD cs) * 10 ^ ys.length + valD ys
    rw [ih, List.length_append, pow_add]
    ring

theorem valD_natDecAux (fuel : Nat) :
    ∀ n, n < fuel → valD (natDecAux fuel n []) = n := by
  induction fuel with
  | zero => intro n h; omega
  | succ fuel ih =>
    intro n h
    by_cases h10 : n < 10
    · simp [natDecAux, h10, valD, decDigit_toNat h10]
    · simp only [natDecAux, if_neg h10]
      rw [natDecAux_append]
      have hlt : n / 10 < fuel := by omega
      rw [valD_append, ih (n / 10) hlt]
      simp [valD, decDigit_toNat (Nat.mod_lt n (by omega) : n % 10 < 10)]
      omega

theorem valD_natDec (n : Nat) : valD (natDec n) = n :=
  valD_natDecAux (n + 1) n (Nat.lt_succ_self n)

theorem natDec_inj {a b : Nat} (h : natDec a = natDec b) : a = b := by
  have := congrArg valD h
  rwa [valD_natDec, valD_natDec] at this

theorem intDec_chars (i : Int) : ∀ c ∈ intDec i, isDigitC c = true ∨ c = '-' := by
  intro c hc
  unfold intDec at hc
  by_cases h : i < 0
  · rw [if_pos h] at hc
    rcases List.mem_cons.mp hc with rfl | hmem
    · exact Or.inr rfl
    · exact Or.inl (natDec_all_digit _ c hmem)
  · rw [if_neg h] at hc
    exact Or.inl (natDec_all_digit _ c hc)

theorem intDec_inj {i j : Int} (h : intDec i = intDec j) : i = j := by
  unfold intDec at h
  by_cases hi : i < 0 <;> by_cases hj : j < 0
  · rw [if_pos hi, if_pos hj] at h
    injection h with h1 h2
    have := natDec_inj h2
    omega
  · rw [if_pos hi, if_neg hj] at h
    have hd : '-' ∈ natDec j.toNat := h ▸ List.mem_cons_self '-' _
    have := natDec_all_digit j.toNat '-' hd
    simp [isDigitC] at this
  · rw [if_neg hi, if_pos hj] at h
    have hd : '-' ∈ natDec i.toNat := h.symm ▸ List.mem_cons_self '-' _
    have := natDec_all_digit i.toNat '-' hd
    simp [isDigitC] at this
  · rw [if_neg hi, if_neg hj] at h
    have := natDec_inj h
    omega

theorem intDec_not_mem {c : Char} (hc : isDigitC c = false) (hne : c ≠ '-') (i : Int) :
    c ∉ intDec i := by
  intro hmem
  rcases intDec_chars i c hmem with h | h
  · rw [h] at hc; cases hc
  · exact hne h

/-- Parse a non-empty all-digit string back to a natural number. -/
def parseNatDec (cs : List Char) : Option Nat :=
  if cs.isEmpty then none
  else if cs.all isDigitC then some (valD cs) else none

/-- Parse an optionally `'-'`-signed digit string back to an integer. -/
def parseIntDec (cs : List Char) : Option Int :=
  match cs with
  | [] => none
  | c :: rest =>
    if c = '-' then (parseNatDec rest).map (fun n => -(n : Int))
    else (parseNatDec (c :: rest)).map (fun n => (n : Int))

theorem parseNatDec_natDec (n : Nat) : parseNatDec (natDec n) = some n := by
  unfold parseNatDec
  rw [if_neg (by simpa [List.isEmpty_iff] using natDec_ne_nil n)]
  rw [if_pos (List.all_eq_true.mpr (natDec_all_digit n))]
  rw [valD_natDec]

theorem parseIntDec_intDec (i : Int) : parseIntDec (intDec i) = some i := by
  unfold intDec
  by_cases h : i < 0
  · rw [if_pos h]
    simp [parseIntDec, parseNatDec_natDec]
    omega
  · rw [if_neg h]
    obtain ⟨c, rest, hcr⟩ : ∃ c rest, natDec i.toNat = c :: rest := by
      cases hnd : natDec i.toNat with
      | nil => exact absurd hnd (natDec_ne_nil _)
      | cons c rest => exact ⟨c, rest, rfl⟩
    rw [hcr]
    have hdig : isDigitC c = true := natDec_all_digit i.toNat c (hcr ▸ List.mem_cons_self c rest)
    have hne : c ≠ '-' := by
      intro hcEq
      rw [hcEq] at hdig
      simp [isDigitC] at hdig
    rw [parseIntDec, if_neg hne, ← hcr, parseNatDec_natDec]
    simp
    omega

/-!
### Cache keys (`internal/cache/cache.go`)

Go source constants and key builders:
```
reviewsKeyPrefix = "reviews:product:"
ratingKeyPrefix  = "rating:product:"
reviewsKey(productID, limit, offset) = Sprintf("%s%d:limit:%d:offset:%d", reviewsKeyPrefix, productID, limit, offset)
reviewsPatternKey(productID)         = Sprintf("%s%d:*", reviewsKeyPrefix, productID)
ratingKey(productID)                 = Sprintf("%s%d", ratingKeyPrefix, productID)
```
(The Go identifiers for the two namespace constants end in a word that this
development shortens to `Pre`.)  The idempotency store
(`internal/repository/idempotency`, Redis implementation) prepends
`keyPrefix = "idempotency:"` to every client token.
-/

def reviewsKeyPre : List Char := "reviews:product:".data

def ratingKeyPre : List Char := "rating:product:".data

def idemKeyPre : List Char := "idempotency:".data

def reviewsKey (productID limit offset : Int) : List Char :=
  reviewsKeyPre ++ intDec productID ++ ":limit:".data ++ intDec limit
    ++ ":offset:".data ++ intDec offset

def reviewsPatternKey (productID : Int) : List Char :=
  reviewsKeyPre ++ intDec productID ++ ":*".data

def ratingKey (productID : Int) : List Char :=
  ratingKeyPre ++ intDec productID

/-- The full Redis key the idempotency store uses for a client token
(`RedisStore.Get`/`Set` prepend `keyPrefix`). -/
def idemStoreKey (token : List Char) : List Char := idemKeyPre ++ token

/-!
### Redis glob matching

`InvalidateReviews` deletes keys via `SCAN cursor MATCH pattern`.  Redis
matches keys against glob patterns where `*` matches any (possibly empty)
substring and `?` matches one character; the patterns this program builds
contain no character classes or escapes, so the model covers `*` and `?`
with all other pattern characters literal. -/
def globMatch : List Char → List Char → Bool
  | [], ks => ks.isEmpty
  | p :: ps, ks =>
    if p = '*' then ks.tails.any (fun suf => globMatch ps suf)
    else
      match ks with
      | [] => false
      | k :: ks' => ((p = '?' : Bool) || (p = k : Bool)) && globMatch ps ks'

theorem globMatch_star (ks : List Char) : globMatch ['*'] ks = true := by
  induction ks with
  | nil => rfl
  | cons k ks ih => simp [globMatch, List.tails]

theorem globMatch_lit_star (lit : List Char) (hs : '*' ∉ lit) (hq : '?' ∉ lit) :
    ∀ ks, globMatch (lit ++ ['*']) ks = true ↔ lit <+: ks := by
  induction lit with
  | nil =>
    intro ks
    simp [globMatch_star, List.nil_prefix]
  | cons p lit ih =>
    have hps : p ≠ '*' := fun h => hs (h ▸ List.mem_cons_self p lit)
    have hpq : p ≠ '?' := fun h => hq (h ▸ List.mem_cons_self p lit)
    have hs' : '*' ∉ lit := fun h => hs (List.mem_cons_of_mem p h)
    have hq' : '?' ∉ lit := fun h => hq (List.mem_cons_of_mem p h)
    intro ks
    cases ks with
    | nil =>
      simp only [List.cons_append, globMatch, if_neg hps]
      constructor
      · intro h; cases h
      · intro h
        obtain ⟨t, ht⟩ := h
        simp at ht
    | cons k ks =>
      simp only [List.cons_append, globMatch, if_neg hps]
      rw [List.cons_prefix_cons, ← ih hs' hq' ks]
      constructor
      · intro h
        have h' := h
        simp only [Bool.and_eq_true, Bool.or_eq_true, decide_eq_true_eq] at h'
        rcases h' with ⟨hpk | hpk, hrest⟩
        · exact absurd hpk hpq
        · exact ⟨hpk, hrest⟩
      · rintro ⟨rfl, hrest⟩
        simp [hrest]

theorem pre_cancel {α : Type} (a b c : List α) (h : a ++ b <+: a ++ c) : b <+: c := by
  obtain ⟨t, ht⟩ := h
  rw [List.append_assoc] at ht
  exact ⟨t, List.append_cancel_left ht⟩

/-- If `xs ++ [c]` is a prefix of `ys ++ c :: rest` and `c` occurs in neither
`xs` nor `ys`, the separator occurrences line up, so `xs = ys`. -/
theorem eq_of_sep_pre {c : Char} :
    ∀ xs ys : List Char, ∀ rest : List Char, c ∉ xs → c ∉ ys →
      (xs ++ [c]) <+: (ys ++ c :: rest) → xs = ys := by
  intro xs
  induction xs with
  | nil =>
    intro ys rest _ hy h
    cases ys with
    | nil => rfl
    | cons y ys' =>
      rw [List.nil_append, List.cons_append, List.cons_prefix_cons] at h
      exact absurd h.1.symm (fun hcy => hy (hcy ▸ List.mem_cons_self y ys'))
  | cons x xs' ih =>
    intro ys rest hx hy h
    cases ys with
    | nil =>
      rw [List.cons_append, List.nil_append, List.cons_prefix_cons] at h
      exact absurd h.1 (fun hxc => hx (hxc ▸ List.mem_cons_self x xs'))
    | cons y ys' =>
      rw [List.cons_append, List.cons_append, List.cons_prefix_cons] at h
      have hx' : c ∉ xs' := fun hm => hx (List.mem_cons_of_mem x hm)
      have hy' : c ∉ ys' := fun hm => hy (List.mem_cons_of_mem y hm)
      rw [h.1, ih ys' rest hx' hy' h.2]

theorem star_not_mem_intDec (i : Int) : '*' ∉ intDec i :=
  intDec_not_mem (by decide) (by decide) i

theorem qmark_not_mem_intDec (i : Int) : '?' ∉ intDec i :=
  intDec_not_mem (by decide) (by decide) i

theorem colon_not_mem_intDec (i : Int) : ':' ∉ intDec i :=
  intDec_not_mem (by decide) (by decide) i

/-- The literal part of the reviews invalidation pattern: everything before
the trailing `*`. -/
def reviewsPatternLit (productID : Int) : List Char :=
  reviewsKeyPre ++ intDec productID ++ [':']

theorem reviewsPatternKey_decomp (p : Int) :
    reviewsPatternKey p = reviewsPatternLit p ++ ['*'] := by
  simp [reviewsPatternKey, reviewsPatternLit, show (":*").data = [':', '*'] from rfl]

theorem reviewsKey_decomp (p l o : Int) :
    reviewsKey p l o
      = reviewsPatternLit p
        ++ ("limit:".data ++ intDec l ++ ":offset:".data ++ intDec o) := by
  simp [reviewsKey, reviewsPatternLit,
    show (":limit:").data = ':' :: ("limit:").data from rfl]

theorem star_not_mem_lit (p : Int) : '*' ∉ reviewsPatternLit p := by
  intro h
  simp only [reviewsPatternLit, List.mem_append, List.mem_singleton] at h
  rcases h with (h | h) | h
  · revert h; decide
  · exact star_not_mem_intDec p h
  · cases h

theorem qmark_not_mem_lit (p : Int) : '?' ∉ reviewsPatternLit p := by
  intro h
  simp only [reviewsPatternLit, List.mem_append, List.mem_singleton] at h
  rcases h with (h | h) | h
  · revert h; decide
  · exact qmark_not_mem_intDec p h
  · cases h

/-- The invalidation pattern for product `p` matches every child-list key of
product `p`, whatever the limit and offset. -/
theorem globMatch_pattern_self (p l o : Int) :
    globMatch (reviewsPatternKey p) (reviewsKey p l o) = true := by
  rw [reviewsPatternKey_decomp,
    globMatch_lit_star _ (star_not_mem_lit p) (qmark_not_mem_lit p),
    reviewsKey_decomp]
  exact ⟨_, rfl⟩

theorem pattern_match_iff (p : Int) (key : List Char) :
    globMatch (reviewsPatternKey p) key = true ↔ reviewsPatternLit p <+: key := by
  rw [reviewsPatternKey_decomp]
  exact globMatch_lit_star _ (star_not_mem_lit p) (qmark_not_mem_lit p) key

theorem lit_pre_lit {p q : Int} {rest : List Char}
    (h : reviewsPatternLit p <+: reviewsPatternLit q ++ rest) : p = q := by
  have h' : (intDec p ++ [':']) <+: (intDec q ++ ':' :: rest) :=
    pre_cancel reviewsKeyPre _ _ (by
      simpa [reviewsPatternLit, List.append_assoc] using h)
  exact intDec_inj
    (eq_of_sep_pre _ _ _ (colon_not_mem_intDec p) (colon_not_mem_intDec q) h')

/-- The invalidation pattern for product `p` matches no child-list key of a
different product `q`: the pattern closes the ID segment with `:` before the
wildcard, so an ID that is merely a decimal prefix of another cannot
collide. -/
theorem globMatch_pattern_other {p q : Int} (hpq : p ≠ q) (l o : Int) :
    globMatch (reviewsPatternKey p) (reviewsKey q l o) = false := by
  cases hb : globMatch (reviewsPatternKey p) (reviewsKey q l o) with
  | false => rfl
  | true =>
    exfalso
    have hpre := (pattern_match_iff p _).mp hb
    rw [reviewsKey_decomp] at hpre
    exact hpq (lit_pre_lit hpre)

/-- The invalidation pattern for reviews never matches a rating key: the
namespaces `reviews:product:` and `rating:product:` differ at their second
character. -/
theorem globMatch_pattern_rating (p q : Int) :
    globMatch (reviewsPatternKey p) (ratingKey q) = false := by
  cases hb : globMatch (reviewsPatternKey p) (ratingKey q) with
  | false => rfl
  | true =>
    exfalso
    obtain ⟨t, ht⟩ := (pattern_match_iff p _).mp hb
    rw [reviewsPatternLit, ratingKey,
      show reviewsKeyPre = 'r' :: 'e' :: ("views:product:").data from rfl,
      show ratingKeyPre = 'r' :: 'a' :: ("ting:product:").data from rfl] at ht
    simp only [List.cons_append, List.append_assoc] at ht
    injection ht with h1 h2
    injection h2 with h3 h4
    exact absurd h3 (by decide)

/-- The invalidation pattern for reviews never matches an idempotency-store
key: that namespace starts with `i`, not `r`. -/
theorem globMatch_pattern_idem (p : Int) (token : List Char) :
    globMatch (reviewsPatternKey p) (idemStoreKey token) = false := by
  cases hb : globMatch (reviewsPatternKey p) (idemStoreKey token) with
  | false => rfl
  | true =>
    exfalso
    obtain ⟨t, ht⟩ := (pattern_match_iff p _).mp hb
    rw [reviewsPatternLit, idemStoreKey,
      show reviewsKeyPre = 'r' :: ("eviews:product:").data from rfl,
      show idemKeyPre = 'i' :: ("dempotency:").data from rfl] at ht
    simp only [List.cons_append, List.append_assoc] at ht
    injection ht with h1 h2
    exact absurd h1 (by decide)

theorem ratingKey_inj {p q : Int} (h : ratingKey p = ratingKey q) : p = q :=
  intDec_inj (List.append_cancel_left h)

theorem ratingKey_ne_idem (p : Int) (token : List Char) :
    ratingKey p ≠ idemStoreKey token := by
  intro h
  rw [ratingKey, idemStoreKey,
    show ratingKeyPre = 'r' :: ("ating:product:").data from rfl,
    show idemKeyPre = 'i' :: ("dempotency:").data from rfl] at h
  simp only [List.cons_append] at h
  injection h with h1 h2
  exact absurd h1 (by decide)

/-!
### The review entity and its JSON serialization

`models.Review` (`internal/models`, src/unnamed/part_013).  `time.Time`
fields are modelled by their RFC3339 JSON text, and Go strings by
`List Char`.  `json.Marshal` of a `[]models.Review` yields `null` for a nil
slice and otherwise a JSON array of objects in declaration field order;
`json.Unmarshal` into `[]models.Review` is modelled on exactly the shapes
this program ever stores (the canonical output of the marshaller, plus
`null`); any other payload is a deserialization failure.
-/

structure Review where
  id : Int
  productID : Int
  firstName : List Char
  lastName : List Char
  rating : Int
  comment : Option (List Char)
  createdAt : List Char
  updatedAt : List Char
deriving DecidableEq

/-- JSON string-body escaping (the characters the canonical encoder needs). -/
def encStringBody : List Char → List Char
  | [] => []
  | c :: cs =>
    (if c = '"' then ['\\', '"'] else if c = '\\' then ['\\', '\\'] else [c])
      ++ encStringBody cs

/-- Render a JSON string literal. -/
def jstrRender (s : List Char) : List Char := '"' :: encStringBody s ++ ['"']

/-- Comma-separated concatenation. -/
def commaSep : List (List Char) → List Char
  | [] => []
  | [x] => x
  | x :: y :: xs => x ++ ',' :: commaSep (y :: xs)

/-- `"name":` field header. -/
def fieldHdr (name : List Char) : List Char := jstrRender name ++ [':']

/-- Canonical JSON object for one review (Go field-name keys, declaration
order, `Comment` nullable). -/
def marshalReview (r : Review) : List Char :=
  '{' :: commaSep
    [ fieldHdr ("ID").data ++ intDec r.id,
      fieldHdr ("ProductID").data ++ intDec r.productID,
      fieldHdr ("FirstName").data ++ jstrRender r.firstName,
      fieldHdr ("LastName").data ++ jstrRender r.lastName,
      fieldHdr ("Rating").data ++ intDec r.rating,
      fieldHdr ("Comment").data
        ++ (match r.comment with | none => ("null").data | some s => jstrRender s),
      fieldHdr ("CreatedAt").data ++ jstrRender r.createdAt,
      fieldHdr ("UpdatedAt").data ++ jstrRender r.updatedAt ]
    ++ ['}']

/-- `json.Marshal` of a `[]models.Review` value.  A nil slice (`none`)
marshals to the four bytes `null`; a non-nil slice marshals to a JSON
array. -/
def marshalReviews : Option (List Review) → List Char
  | none => ("null").data
  | some rs => '[' :: commaSep (rs.map marshalReview) ++ [']']

/-- Read a JSON string body up to the closing quote, undoing the encoder's
escapes. -/
def parseStringLit : List Char → Option (List Char × List Char)
  | [] => none
  | '\\' :: c :: rest =>
    if c = '"' ∨ c = '\\' then (parseStringLit rest).map (fun p => (c :: p.1, p.2))
    else none
  | '"' :: rest => some ([], rest)
  | c :: rest => (parseStringLit rest).map (fun p => (c :: p.1, p.2))

/-- Read an optionally signed decimal integer literal. -/
def parseIntLit (cs : List Char) : Option (Int × List Char) :=
  match cs with
  | '-' :: rest =>
    let p := rest.span isDigitC
    if p.1.isEmpty then none else some (-(valD p.1 : Int), p.2)
  | _ =>
    let p := cs.span isDigitC
    if p.1.isEmpty then none else some ((valD p.1 : Int), p.2)

/-- Consume an expected literal token. -/
def expectLit (tok cs : List Char) : Option (List Char) :=
  if tok.isPrefixOf cs then some (cs.drop tok.length) else none

/-- Parse the nullable `Comment` field value. -/
def parseCommentVal (cs : List Char) : Option (Option (List Char) × List Char) :=
  match cs with
  | 'n' :: 'u' :: 'l' :: 'l' :: rest => some (none, rest)
  | '"' :: rest => (parseStringLit rest).map (fun p => (some p.1, p.2))
  | _ => none

/-- Parse one review object in the canonical encoded form. -/
def parseReviewObj (cs : List Char) : Option (Review × List Char) :=
  match expectLit ('{' :: fieldHdr ("ID").data) cs with
  | none => none
  | some r1 =>
  match parseIntLit r1 with
  | none => none
  | some (idv, r2) =>
  match expectLit (',' :: fieldHdr ("ProductID").data) r2 with
  | none => none
  | some r3 =>
  match parseIntLit r3 with
  | none => none
  | some (pidv, r4) =>
  match expectLit (',' :: fieldHdr ("FirstName").data ++ ['"']) r4 with
  | none => none
  | some r5 =>
  match parseStringLit r5 with
  | none => none
  | some (fn, r6) =>
  match expectLit (',' :: fieldHdr ("LastName").data ++ ['"']) r6 with
  | none => none
  | some r7 =>
  match parseStringLit r7 with
  | none => none
  | some (ln, r8) =>
  match expectLit (',' :: fieldHdr ("Rating").data) r8 with
  | none => none
  | some r9 =>
  match parseIntLit r9 with
  | none => none
  | some (rat, r10) =>
  match expectLit (',' :: fieldHdr ("Comment").data) r10 with
  | none => none
  | some r11 =>
  match parseCommentVal r11 with
  | none => none
  | some (cmt, r12) =>
  match expectLit (',' :: fieldHdr ("CreatedAt").data ++ ['"']) r12 with
  | none => none
  | some r13 =>
  match parseStringLit r13 with
  | none => none
  | some (ca, r14) =>
  match expectLit (',' :: fieldHdr ("UpdatedAt").data ++ ['"']) r14 with
  | none => none
  | some r15 =>
  match parseStringLit r15 with
  | none => none
  | some (ua, r16) =>
  match expectLit ['}'] r16 with
  | none => none
  | some r17 => some (⟨idv, pidv, fn, ln, rat, cmt, ca, ua⟩, r17)

/-- Parse one or more comma-separated review objects (fuelled). -/
def parseReviewsAux : Nat → List Char → Option (List Review × List Char)
  | 0, _ => none
  | fuel + 1, cs =>
    match parseReviewObj cs with
    | none => none
    | some (r, rest) =>
      match rest with
      | ',' :: rest2 =>
        (parseReviewsAux fuel rest2).map (fun p => (r :: p.1, p.2))
      | _ => some ([r], rest)

/-- `json.Unmarshal` of a cached payload into `[]models.Review`: `null`
yields a nil slice, a well-formed array yields a non-nil slice, anything
else is a deserialization failure (`none`). -/
def unmarshalReviews (cs : List Char) : Option (Option (List Review)) :=
  if cs = ("null").data then some none
  else
    match cs with
    | '[' :: ']' :: rest => if rest.isEmpty then some (some []) else none
    | '[' :: rest =>
      match parseReviewsAux (rest.length + 1) rest with
      | some (rs, ']' :: rem) => if rem.isEmpty then some (some rs) else none
      | _ => none
    | _ => none

/-!
### The aggregate rating and its serialization

Go caches `*float64`; `json.Marshal` writes the literal `null` for a nil
pointer and a numeral otherwise, and `GetRating` compares the raw payload
against the string `"null"` before unmarshalling.  The floating-point value
is abstracted as an exact rational (the code never computes with the cached
numeral, it only round-trips it), rendered injectively as
`numerator / denominator`. -/
def ratChars (q : Rat) : List Char := intDec q.num ++ '/' :: natDec q.den

/-- `json.Marshal` of a `*float64`. -/
def marshalRating : Option Rat → List Char
  | none => ("null").data
  | some q => ratChars q

/-- Inverse of `ratChars`; fails on anything that is not a rendered
rational. -/
def parseRatChars (cs : List Char) : Option Rat :=
  let p := cs.span (fun c => decide (c ≠ '/'))
  match p.2 with
  | '/' :: dstr =>
    match parseIntDec p.1, parseNatDec dstr with
    | some n, some d => some (mkRat n d)
    | _, _ => none
  | _ => none

theorem ratChars_ne_null (q : Rat) : ratChars q ≠ ("null").data := by
  intro h
  have hmem : '/' ∈ ratChars q := by simp [ratChars]
  rw [h] at hmem
  revert hmem
  decide

theorem span_sep {p : Char → Bool} {c : Char} (hc : p c = false) :
    ∀ xs ys : List Char, (∀ x ∈ xs, p x = true) →
      (xs ++ c :: ys).span p = (xs, c :: ys) := by
  intro xs
  induction xs with
  | nil =>
    intro ys _
    rw [List.span_eq_take_drop]
    simp [List.takeWhile_cons, List.dropWhile_cons, hc]
  | cons x xs ih =>
    intro ys hall
    have hx : p x = true := hall x (List.mem_cons_self x xs)
    have h2 := ih ys (fun a ha => hall a (List.mem_cons_of_mem x ha))
    rw [List.span_eq_take_drop] at h2 ⊢
    obtain ⟨ht, hd⟩ := Prod.ext_iff.mp h2
    simp only at ht hd
    simp [List.takeWhile_cons, List.dropWhile_cons, hx, ht, hd]

theorem slash_not_mem_intDec (i : Int) : '/' ∉ intDec i :=
  intDec_not_mem (by decide) (by decide) i

theorem parseRatChars_ratChars (q : Rat) : parseRatChars (ratChars q) = some q := by
  unfold parseRatChars ratChars
  have hspan : ((intDec q.num ++ '/' :: natDec q.den).span
      (fun c => decide (c ≠ '/'))) = (intDec q.num, '/' :: natDec q.den) := by
    apply span_sep (by simp) _ _ ?_
    intro x hx
    simp only [decide_eq_true_eq]
    intro hEq
    exact slash_not_mem_intDec q.num (hEq ▸ hx)
  rw [hspan]
  simp [parseIntDec_intDec, parseNatDec_natDec, Rat.mkRat_self]

/-!
### Redis state and the cache service (`internal/cache/cache.go`)

Redis is modelled as a partial map from keys to stored payloads.  The
network and TTL are outside the claims under verification, so the store's
own operations succeed; the only error the modelled cache-service read
paths produce is a deserialization failure.  `deleteByPattern` drives a
`SCAN cursor MATCH pattern`/`DEL` loop until the cursor returns to 0, which
traverses the whole keyspace, so it deletes exactly the keys matching the
pattern. -/
abbrev RKV : Type := List Char → Option (List Char)

def rkvEmpty : RKV := fun _ => none

def rkvSet (st : RKV) (k v : List Char) : RKV :=
  fun q => if q = k then some v else st q

def rkvDel (st : RKV) (k : List Char) : RKV :=
  fun q => if q = k then none else st q

/-- Effect of `deleteByPattern` on the store. -/
def rkvDelPattern (st : RKV) (pat : List Char) : RKV :=
  fun q => if globMatch pat q then none else st q

/-- `Service.GetReviews`: absent key is a cache miss `(nil, nil)`;
deserialization failure is an error; otherwise the unmarshalled slice
(`.ok none` when the payload was `null`, matching Go's nil result slice). -/
def GetReviews (st : RKV) (productID limit offset : Int) :
    Except Unit (Option (List Review)) :=
  match st (reviewsKey productID limit offset) with
  | none => .ok none
  | some data =>
    match unmarshalReviews data with
    | none => .error ()
    | some v => .ok v

/-- `Service.SetReviews`: marshal and store under the derived key. -/
def SetReviews (st : RKV) (productID limit offset : Int)
    (reviews : Option (List Review)) : RKV :=
  rkvSet st (reviewsKey productID limit offset) (marshalReviews reviews)

/-- `Service.InvalidateReviews`: pattern-delete all child-list keys of the
product. -/
def InvalidateReviews (st : RKV) (productID : Int) : RKV :=
  rkvDelPattern st (reviewsPatternKey productID)

/-- `Service.GetRating`: three-way result `(value, found)`; the raw payload
is compared against the literal `null` before unmarshalling. -/
def GetRating (st : RKV) (productID : Int) : Except Unit (Option Rat × Bool) :=
  match st (ratingKey productID) with
  | none => .ok (none, false)
  | some data =>
    if data = ("null").data then .ok (none, true)
    else
      match parseRatChars data with
      | none => .error ()
      | some q => .ok (some q, true)

/-- `Service.SetRating`. -/
def SetRating (st : RKV) (productID : Int) (rating : Option Rat) : RKV :=
  rkvSet st (ratingKey productID) (marshalRating rating)

/-- `Service.InvalidateRating`: single exact-key delete. -/
def InvalidateRating (st : RKV) (productID : Int) : RKV :=
  rkvDel st (ratingKey productID)

/-- `Service.InvalidateProductCache`: reviews pattern-delete, then rating
key delete (errors on either step are logged and do not stop the other). -/
def InvalidateProductCache (st : RKV) (productID : Int) : RKV :=
  InvalidateRating (InvalidateReviews st productID) productID

/-!
### Handler read path (`GetProductReviews`, src/unnamed/part_010)

After clamping pagination the handler consults the cache: a `GetReviews`
error is logged and execution falls through to the database branch; a
non-nil cached slice is served; a nil slice (miss) falls through to the
database. -/
inductive ReviewsSource where
  | cache (rs : List Review)
  | db
deriving DecidableEq

/-- Which source `GetProductReviews` serves from, as a function of the
cache state. -/
def getProductReviewsSource (st : RKV) (productID limit offset : Int) :
    ReviewsSource :=
  match GetReviews st productID limit offset with
  | .error _ => .db
  | .ok none => .db
  | .ok (some rs) => .cache rs

/-!
### Idempotency middleware (`internal/middleware/idempotency.go`)

`CachedResponse` is the stored response triple.  The handler is modelled by
the response it writes through the recorder (`responseRecorder` initialises
the status to 200 and captures status/headers/body while forwarding).  The
store lookup result is a parameter: `.error` models a store error, `.ok
none` models `redis.Nil` mapped to `(nil, nil)` by `RedisStore.Get`, and
`.ok (some c)` a hit. -/
structure CachedResponse where
  statusCode : Nat
  headers : List (List Char × List Char)
  body : List Char
deriving DecidableEq

/-- `mutatingMethods`: POST, PUT and DELETE. -/
def isMutatingMethod (m : List Char) : Bool :=
  (m = ("POST").data : Bool) || (m = ("PUT").data : Bool)
    || (m = ("DELETE").data : Bool)

/-- The 2xx test applied before write-back. -/
def is2xx (code : Nat) : Bool := decide (200 ≤ code) && decide (code < 300)

/-- Outcome of one pass through the middleware: the response the client
sees, whether the wrapped handler ran, and the value passed to
`store.Set` (if any). -/
structure MwOutcome where
  response : CachedResponse
  handlerInvoked : Bool
  stored : Option CachedResponse
deriving DecidableEq

/-- One pass of the `Idempotency` middleware over a request, given the
store-lookup result and the response the handler would produce.  The
cached-response branch requires `err == nil && cached != nil`; both a
lookup error and a clean miss fall through to handler execution, and the
write-back (whose own error is discarded with `_ =`) happens only for 2xx
captured statuses. -/
def idempotencyStep (method token : List Char)
    (lookup : Except Unit (Option CachedResponse))
    (handlerResp : CachedResponse) : MwOutcome :=
  if ¬ isMutatingMethod method then
    { response := handlerResp, handlerInvoked := true, stored := none }
  else if token = [] then
    { response := handlerResp, handlerInvoked := true, stored := none }
  else
    match lookup with
    | .ok (some c) => { response := c, handlerInvoked := false, stored := none }
    | _ =>
      { response := handlerResp, handlerInvoked := true,
        stored := if is2xx handlerResp.statusCode then some handlerResp else none }

/-- Idempotency-store contents: token to cached response.  (`RedisStore`
scopes tokens under the `idempotency:` key namespace; that namespacing is
treated separately in the key-disjointness theorems.) -/
abbrev IStore : Type := List Char → Option CachedResponse

def istoreEmpty : IStore := fun _ => none

/-- One request processed against a live idempotency store: lookup from
the store, run the middleware pass, then apply the write-back.  A failed
write-back (`setFails = true`) leaves the store unchanged; its error is
discarded by the middleware either way. -/
def runRequest (st : IStore) (method token : List Char)
    (handlerResp : CachedResponse) (setFails : Bool) :
    CachedResponse × Bool × IStore :=
  let out := idempotencyStep method token (.ok (st token)) handlerResp
  ( out.response, out.handlerInvoked,
    match out.stored with
    | none => st
    | some c =>
      if setFails then st else fun q => if q = token then some c else st q )

/-- `n` sequential repeats of the same request: the list of responses, the
number of handler executions, and the final store. -/
def runRepeats : Nat → IStore → List Char → List Char → CachedResponse →
    List CachedResponse × Nat × IStore
  | 0, st, _, _, _ => ([], 0, st)
  | n + 1, st, method, token, handlerResp =>
    let r := runRequest st method token handlerResp false
    let rest := runRepeats n r.2.2 method token handlerResp
    (r.1 :: rest.1, (if r.2.1 then 1 else 0) + rest.2.1, rest.2.2)

/-!
### Helper lemmas about invalidation and keys
-/

theorem reviewsKey_ne_ratingKey (p l o q : Int) : reviewsKey p l o ≠ ratingKey q := by
  intro h
  rw [reviewsKey, ratingKey,
    show reviewsKeyPre = 'r' :: 'e' :: ("views:product:").data from rfl,
    show ratingKeyPre = 'r' :: 'a' :: ("ting:product:").data from rfl] at h
  simp only [List.cons_append, List.append_assoc] at h
  injection h with h1 h2
  injection h2 with h3 h4
  exact absurd h3 (by decide)

/-- Keys untouched by the rating delete and unmatched by the reviews
pattern survive `InvalidateProductCache` unchanged. -/
theorem invalidate_frame (st : RKV) (p : Int) (k : List Char)
    (hk : k ≠ ratingKey p) (hg : globMatch (reviewsPatternKey p) k = false) :
    InvalidateProductCache st p k = st k := by
  simp [InvalidateProductCache, InvalidateRating, InvalidateReviews, rkvDel,
    rkvDelPattern, hk, hg]

theorem invalidate_kills_reviews (st : RKV) (pid l o : Int) :
    InvalidateProductCache st pid (reviewsKey pid l o) = none := by
  unfold InvalidateProductCache InvalidateRating InvalidateReviews rkvDel rkvDelPattern
  by_cases hk : reviewsKey pid l o = ratingKey pid
  · simp [hk]
  · simp [hk, globMatch_pattern_self]

theorem invalidate_kills_rating (st : RKV) (pid : Int) :
    InvalidateProductCache st pid (ratingKey pid) = none := by
  simp [InvalidateProductCache, InvalidateRating, rkvDel]

/-- Replaying against a store that holds `c` for the token leaves the
store unchanged and never invokes the handler. -/
theorem runRepeats_hit (m token : List Char) (c h : CachedResponse) (st : IStore)
    (hm : isMutatingMethod m = true) (ht : token ≠ []) (hc : st token = some c) :
    ∀ n, runRepeats n st m token h = (List.replicate n c, 0, st) := by
  intro n
  induction n with
  | zero => simp [runRepeats]
  | succ n ih =>
    have hstep : runRequest st m token h false = (c, false, st) := by
      simp [runRequest, idempotencyStep, hm, ht, hc]
    simp [runRepeats, hstep, ih, List.replicate_succ]

/-!
### The claims
-/

/-- C1: on a mutating request carrying a token for which the idempotency
store holds a cached response, the middleware emits exactly the stored
status code, headers and body, does not invoke the wrapped handler, and
does not write back; hence any number of repeats against such a store
returns the stored response every time with zero handler executions and
leaves the store unchanged. -/
theorem claim_C1_replay_hit (m token : List Char) (c h : CachedResponse)
    (st : IStore) (n : Nat)
    (hm : isMutatingMethod m = true) (ht : token ≠ []) (hc : st token = some c) :
    idempotencyStep m token (.ok (some c)) h
        = { response := c, handlerInvoked := false, stored := none } ∧
    runRepeats n st m token h = (List.replicate n c, 0, st) := by
  constructor
  · simp [idempotencyStep, hm, ht]
  · exact runRepeats_hit m token c h st hm ht hc n

/-- Witness for C1 at a concrete POST request with token `t`. -/
theorem claim_C1_witness :
    idempotencyStep ("POST").data ("t").data
        (.ok (some ⟨201, [], ("x").data⟩)) ⟨200, [], []⟩
      = { response := ⟨201, [], ("x").data⟩, handlerInvoked := false,
          stored := none } ∧
    runRepeats 3 (fun q => if q = ("t").data then some ⟨201, [], ("x").data⟩ else none)
        ("POST").data ("t").data ⟨200, [], []⟩
      = (List.replicate 3 ⟨201, [], ("x").data⟩, 0,
         fun q => if q = ("t").data then some ⟨201, [], ("x").data⟩ else none) :=
  claim_C1_replay_hit ("POST").data ("t").data ⟨201, [], ("x").data⟩ ⟨200, [], []⟩
    _ 3 (by decide) (by decide) (by simp)

/-- C2: on a mutating request with a token and a store miss, the captured
response is written back exactly when its status is 2xx; a non-2xx
response leaves the store unchanged, so an immediately repeated identical
request executes the handler afresh. -/
theorem claim_C2_success_only_store (m token : List Char) (h hAny : CachedResponse)
    (st : IStore) (sf : Bool)
    (hm : isMutatingMethod m = true) (ht : token ≠ [])
    (hmiss : st token = none) (hfail : is2xx h.statusCode = false) :
    (idempotencyStep m token (.ok none) hAny).stored
        = (if is2xx hAny.statusCode then some hAny else none) ∧
    runRequest st m token h sf = (h, true, st) ∧
    (runRequest (runRequest st m token h sf).2.2 m token h sf).2.1 = true := by
  have h1 : (idempotencyStep m token (.ok none) hAny).stored
      = (if is2xx hAny.statusCode then some hAny else none) := by
    simp [idempotencyStep, hm, ht]
  have h2 : runRequest st m token h sf = (h, true, st) := by
    simp [runRequest, idempotencyStep, hm, ht, hmiss, hfail]
  refine ⟨h1, h2, ?_⟩
  rw [h2]
  simp [runRequest, idempotencyStep, hm, ht, hmiss]

/-- Witness for C2: a 422 response under token `t` is not stored and the
immediate retry runs the handler again; a 201 response would be stored. -/
theorem claim_C2_witness :
    (idempotencyStep ("POST").data ("t").data (.ok none)
        ⟨201, [], ("ok").data⟩).stored
      = (if is2xx (201 : Nat) then some ⟨201, [], ("ok").data⟩ else none) ∧
    runRequest istoreEmpty ("POST").data ("t").data ⟨422, [], ("bad").data⟩ false
      = (⟨422, [], ("bad").data⟩, true, istoreEmpty) ∧
    (runRequest
        (runRequest istoreEmpty ("POST").data ("t").data
          ⟨422, [], ("bad").data⟩ false).2.2
        ("POST").data ("t").data ⟨422, [], ("bad").data⟩ false).2.1 = true :=
  claim_C2_success_only_store ("POST").data ("t").data ⟨422, [], ("bad").data⟩
    ⟨201, [], ("ok").data⟩ istoreEmpty false (by decide) (by decide) rfl (by decide)

/-- C3: populating two child-list pages and the rating for a product and
then invalidating that product leaves both page reads and the rating read
reporting not-found. -/
theorem claim_C3_invalidation_completeness (st : RKV) (pid l1 o1 l2 o2 : Int)
    (x y : Option (List Review)) (z : Option Rat) :
    GetReviews (InvalidateProductCache
        (SetRating (SetReviews (SetReviews st pid l1 o1 x) pid l2 o2 y) pid z) pid)
        pid l1 o1 = .ok none ∧
    GetReviews (InvalidateProductCache
        (SetRating (SetReviews (SetReviews st pid l1 o1 x) pid l2 o2 y) pid z) pid)
        pid l2 o2 = .ok none ∧
    GetRating (InvalidateProductCache
        (SetRating (SetReviews (SetReviews st pid l1 o1 x) pid l2 o2 y) pid z) pid)
        pid = .ok (none, false) := by
  refine ⟨?_, ?_, ?_⟩
  · simp [GetReviews, invalidate_kills_reviews]
  · simp [GetReviews, invalidate_kills_reviews]
  · simp [GetRating, invalidate_kills_rating]

/-- C4: the rating read distinguishes explicit-null (stored nil pointer),
a stored numeric value, and an absent key. -/
theorem claim_C4_rating_three_states (st stAbs : RKV) (pid : Int) (x : Rat)
    (hAbs : stAbs (ratingKey pid) = none) :
    GetRating (SetRating st pid none) pid = .ok (none, true) ∧
    GetRating (SetRating st pid (some x)) pid = .ok (some x, true) ∧
    GetRating stAbs pid = .ok (none, false) := by
  refine ⟨?_, ?_, ?_⟩
  · simp [GetRating, SetRating, rkvSet, marshalRating]
  · have hne := ratChars_ne_null x
    simp [GetRating, SetRating, rkvSet, marshalRating, parseRatChars_ratChars, hne]
  · simp [GetRating, hAbs]

/-- Witness for C4 at product 42 with value 9/2 on the empty store. -/
theorem claim_C4_witness :
    GetRating (SetRating rkvEmpty 42 none) 42 = .ok (none, true) ∧
    GetRating (SetRating rkvEmpty 42 (some (9 / 2))) 42 = .ok (some (9 / 2), true) ∧
    GetRating rkvEmpty 42 = .ok (none, false) :=
  claim_C4_rating_three_states rkvEmpty rkvEmpty 42 (9 / 2) rfl

/-- C5: a cached child-list payload that fails to deserialize produces an
internal error from `GetReviews` which the request path treats exactly
like a miss: it serves from the database, the same source as when nothing
was cached. -/
theorem claim_C5_corrupt_cache_miss (st : RKV) (pid l o : Int) (data : List Char)
    (hstored : st (reviewsKey pid l o) = some data)
    (hbad : unmarshalReviews data = none) :
    GetReviews st pid l o = .error () ∧
    getProductReviewsSource st pid l o = .db ∧
    getProductReviewsSource st pid l o = getProductReviewsSource rkvEmpty pid l o := by
  have h1 : GetReviews st pid l o = .error () := by
    simp [GetReviews, hstored, hbad]
  refine ⟨h1, ?_, ?_⟩
  · unfold getProductReviewsSource
    rw [h1]
  · unfold getProductReviewsSource
    rw [h1]
    simp [GetReviews, rkvEmpty]

/-- Witness for C5: the payload `oops` cached under the page-1 key of
product 1 falls back to the database. -/
theorem claim_C5_witness :
    GetReviews (rkvSet rkvEmpty (reviewsKey 1 10 0) ("oops").data) 1 10 0
        = .error () ∧
    getProductReviewsSource (rkvSet rkvEmpty (reviewsKey 1 10 0) ("oops").data)
        1 10 0 = .db ∧
    getProductReviewsSource (rkvSet rkvEmpty (reviewsKey 1 10 0) ("oops").data)
        1 10 0 = getProductReviewsSource rkvEmpty 1 10 0 :=
  claim_C5_corrupt_cache_miss _ 1 10 0 ("oops").data (by simp [rkvSet]) (by decide)

/-- C6: a store error on lookup behaves exactly as a miss: the handler is
executed (fail open), the handler's own response is returned, and no
error response is produced from the lookup failure. -/
theorem claim_C6_lookup_fail_open (m token : List Char) (e : Unit)
    (h : CachedResponse)
    (hm : isMutatingMethod m = true) (ht : token ≠ []) :
    idempotencyStep m token (.error e) h = idempotencyStep m token (.ok none) h ∧
    (idempotencyStep m token (.error e) h).handlerInvoked = true ∧
    (idempotencyStep m token (.error e) h).response = h := by
  refine ⟨?_, ?_, ?_⟩ <;> simp [idempotencyStep, hm, ht]

/-- Witness for C6 at a concrete DELETE request. -/
theorem claim_C6_witness :
    idempotencyStep ("DELETE").data ("t").data (.error ()) ⟨204, [], []⟩
        = idempotencyStep ("DELETE").data ("t").data (.ok none) ⟨204, [], []⟩ ∧
    (idempotencyStep ("DELETE").data ("t").data (.error ())
        ⟨204, [], []⟩).handlerInvoked = true ∧
    (idempotencyStep ("DELETE").data ("t").data (.error ())
        ⟨204, [], []⟩).response = ⟨204, [], []⟩ :=
  claim_C6_lookup_fail_open ("DELETE").data ("t").data () ⟨204, [], []⟩
    (by decide) (by decide)

/-- C7: for a miss followed by a 2xx handler response, the response
delivered to the client (status, headers, body) and the fact that the
handler ran are identical whether the write-back fails or succeeds; the
write-back error is swallowed. -/
theorem claim_C7_writeback_transparent (m token : List Char) (h : CachedResponse)
    (st : IStore)
    (hm : isMutatingMethod m = true) (ht : token ≠ [])
    (hmiss : st token = none) (h2 : is2xx h.statusCode = true) :
    (runRequest st m token h true).1 = (runRequest st m token h false).1 ∧
    (runRequest st m token h true).1 = h ∧
    (runRequest st m token h true).2.1 = (runRequest st m token h false).2.1 := by
  refine ⟨?_, ?_, ?_⟩ <;> simp [runRequest, idempotencyStep, hm, ht, hmiss, h2]

/-- Witness for C7 at a concrete POST with a 201 response. -/
theorem claim_C7_witness :
    (runRequest istoreEmpty ("POST").data ("t").data ⟨201, [], ("ok").data⟩ true).1
        = (runRequest istoreEmpty ("POST").data ("t").data
            ⟨201, [], ("ok").data⟩ false).1 ∧
    (runRequest istoreEmpty ("POST").data ("t").data ⟨201, [], ("ok").data⟩ true).1
        = ⟨201, [], ("ok").data⟩ ∧
    (runRequest istoreEmpty ("POST").data ("t").data ⟨201, [], ("ok").data⟩ true).2.1
        = (runRequest istoreEmpty ("POST").data ("t").data
            ⟨201, [], ("ok").data⟩ false).2.1 :=
  claim_C7_writeback_transparent ("POST").data ("t").data ⟨201, [], ("ok").data⟩
    istoreEmpty (by decide) (by decide) rfl (by decide)

/-- C8: child-list cache key derivation is deterministic — recomputing the
key on identical inputs yields an identical key, and a Set followed by a
lookup under the same parameters addresses the same entry. -/
theorem claim_C8_key_deterministic (pid l o : Int) (st : RKV)
    (rs : Option (List Review)) :
    reviewsKey pid l o = reviewsKey pid l o ∧
    SetReviews st pid l o rs (reviewsKey pid l o) = some (marshalReviews rs) := by
  exact ⟨rfl, by simp [SetReviews, rkvSet]⟩

/-- C9: invalidating product `p` is exactly scoped: the reviews pattern
matches no child-list key and no rating key of a distinct product `q` (the
pattern closes the ID with `:` so decimal-prefix IDs cannot collide), the
rating delete targets a single exact key, no idempotency-store key is
matched or deleted, and the invalidated state preserves every entry of
`q` and every idempotency record. -/
theorem claim_C9_invalidation_scoped (p q l o : Int) (token : List Char)
    (st : RKV) (hpq : p ≠ q) :
    globMatch (reviewsPatternKey p) (reviewsKey q l o) = false ∧
    globMatch (reviewsPatternKey p) (ratingKey q) = false ∧
    ratingKey p ≠ ratingKey q ∧
    globMatch (reviewsPatternKey p) (idemStoreKey token) = false ∧
    ratingKey p ≠ idemStoreKey token ∧
    InvalidateProductCache st p (reviewsKey q l o) = st (reviewsKey q l o) ∧
    InvalidateProductCache st p (ratingKey q) = st (ratingKey q) ∧
    InvalidateProductCache st p (idemStoreKey token) = st (idemStoreKey token) := by
  have hg1 := globMatch_pattern_other hpq l o
  have hg2 := globMatch_pattern_rating p q
  have hg3 := globMatch_pattern_idem p token
  have hr : ratingKey p ≠ ratingKey q := fun h => hpq (ratingKey_inj h)
  refine ⟨hg1, hg2, hr, hg3, ratingKey_ne_idem p token, ?_, ?_, ?_⟩
  · exact invalidate_frame st p _ (fun h => reviewsKey_ne_ratingKey q l o p h) hg1
  · exact invalidate_frame st p _ (fun h => hr h.symm) hg2
  · exact invalidate_frame st p _ (fun h => ratingKey_ne_idem p token h.symm) hg3

/-- Witness for C9 at products 1 and 12 (decimal-prefix pair) and token
`abc`. -/
theorem claim_C9_witness :
    globMatch (reviewsPatternKey 1) (reviewsKey 12 10 0) = false ∧
    globMatch (reviewsPatternKey 1) (ratingKey 12) = false ∧
    ratingKey 1 ≠ ratingKey 12 ∧
    globMatch (reviewsPatternKey 1) (idemStoreKey ("abc").data) = false ∧
    ratingKey 1 ≠ idemStoreKey ("abc").data ∧
    InvalidateProductCache rkvEmpty 1 (reviewsKey 12 10 0)
        = rkvEmpty (reviewsKey 12 10 0) ∧
    InvalidateProductCache rkvEmpty 1 (ratingKey 12) = rkvEmpty (ratingKey 12) ∧
    InvalidateProductCache rkvEmpty 1 (idemStoreKey ("abc").data)
        = rkvEmpty (idemStoreKey ("abc").data) :=
  claim_C9_invalidation_scoped 1 12 10 0 ("abc").data rkvEmpty (by decide)

/-- C10: a nil child list does not round-trip: it is stored as the payload
`null`, and the subsequent read returns a nil slice with no error — the
same observable result as an absent key — so the request path goes to the
database exactly as on a cold cache. -/
theorem claim_C10_nil_list_miss (st : RKV) (pid l o : Int) :
    SetReviews st pid l o none (reviewsKey pid l o) = some (("null").data) ∧
    GetReviews (SetReviews st pid l o none) pid l o = .ok none ∧
    GetReviews rkvEmpty pid l o = .ok none ∧
    getProductReviewsSource (SetReviews st pid l o none) pid l o = .db := by
  refine ⟨?_, ?_, ?_, ?_⟩
  · simp [SetReviews, rkvSet, marshalReviews]
  · simp [GetReviews, SetReviews, rkvSet, marshalReviews, unmarshalReviews]
  · simp [GetReviews, rkvEmpty]
  · simp [getProductReviewsSource, GetReviews, SetReviews, rkvSet, marshalReviews,
      unmarshalReviews]

end ProductReviewHub
